import Mathlib

/-!
Shallow embedding of the rsstable storage core (src/sst/memtable.rs and
src/sst/disktable.rs) and proofs about its specified properties.

The in-memory structures `BTreeMap` / `BTreeSet` of the Rust standard library
are modelled as association lists / lists with unique keys; key *ordering*
(iteration order) is abstracted away, since no verified property depends on it.
Machine integers: the generation counter is Rust `i32`, modelled as `Int`
(all generations handled by the claims are small and non-negative; the
`parse::<i32>` overflow panic in generation discovery is modelled explicitly).
-/

namespace Rsstable

/-- Lookup in an association list: value of the first pair whose key equals `k`
(model of `BTreeMap::get`). -/
def lookupKey {K V : Type} [DecidableEq K] (l : List (K × V)) (k : K) : Option V :=
(l.find? (fun p => decide (p.1 = k))).map Prod.snd

/-- Removal from an association list (model of `BTreeMap::remove`): drops every
pair with key `k` (on well-formed, duplicate-free lists there is at most one). -/
def removeKey {K V : Type} [DecidableEq K] (l : List (K × V)) (k : K) : List (K × V) :=
l.filter (fun p => !decide (p.1 = k))

/-- Insertion into an association list (model of `BTreeMap::insert`): overwrite
semantics, implemented as remove-then-cons. -/
def insertKey {K V : Type} [DecidableEq K] (l : List (K × V)) (k : K) (v : V) : List (K × V) :=
(k, v) :: removeKey l k

/-- Key membership in an association list (model of `BTreeMap::contains_key`). -/
def keyMem {K V : Type} [DecidableEq K] (l : List (K × V)) (k : K) : Bool :=
l.any (fun p => decide (p.1 = k))

/-- Removal from a set modelled as a list (model of `BTreeSet::remove`). -/
def removeElem {K : Type} [DecidableEq K] (s : List K) (k : K) : List K :=
s.filter (fun x => !decide (x = k))

/-- Insertion into a set modelled as a list (model of `BTreeSet::insert`). -/
def insertElem {K : Type} [DecidableEq K] (s : List K) (k : K) : List K :=
k :: removeElem s k

/-- Membership in a set modelled as a list (model of `BTreeSet::get(_).is_some()`). -/
def elemMem {K : Type} [DecidableEq K] (s : List K) (k : K) : Bool :=
s.any (fun x => decide (x = k))

/-- Capacity threshold of the memtable, `const MAX_ENTRY: usize = 3` in
src/sst/memtable.rs. -/
def MAX_ENTRY : Nat := 3

/-- State of `HashMemtable<K, V>` from src/sst/memtable.rs: the live mapping
`underlying: BTreeMap<K, V>` and the deleted-key set `tombstone: BTreeSet<K>`. -/
structure HashMemtable (K V : Type) where
underlying : List (K × V)
tombstone : List K
deriving DecidableEq

variable {K V : Type} [DecidableEq K] [DecidableEq V]

/-- `HashMemtable::new`: both components empty. -/
def HashMemtable.new : HashMemtable K V :=
⟨[], []⟩

/-- `HashMemtable::is_deleted`: `self.tombstone.get(key).is_some()`. -/
def HashMemtable.is_deleted (m : HashMemtable K V) (k : K) : Bool :=
elemMem m.tombstone k

/-- `HashMemtable::with_check_tombstone`: dispatch on tombstone membership. -/
def HashMemtable.with_check_tombstone {T : Type} (m : HashMemtable K V) (k : K)
(deleted : Unit → T) (not_deleted : Unit → T) : T :=
if m.is_deleted k then deleted () else not_deleted ()

/-- `HashMemtable::flush`: `mem::replace` both components with empty ones and
return the previous contents. -/
def HashMemtable.flush (m : HashMemtable K V) : (List (K × V) × List K) × HashMemtable K V :=
((m.underlying, m.tombstone), HashMemtable.new)

/-- `Memtable::get` for `HashMemtable`: tombstone check first, then
`underlying.get(key)`. -/
def HashMemtable.get (m : HashMemtable K V) (k : K) : Option V :=
m.with_check_tombstone k (fun _ => none) (fun _ => lookupKey m.underlying k)

/-- The memtable state after the two mutations at the head of
`Memtable::set` (`tombstone.remove(&key); underlying.insert(key, value)`),
before the capacity check. -/
def HashMemtable.afterSet (m : HashMemtable K V) (k : K) (v : V) : HashMemtable K V :=
⟨insertKey m.underlying k v, removeElem m.tombstone k⟩

/-- `Memtable::set` for `HashMemtable`: clear the key's tombstone, insert the
mapping, then if `underlying.len() >= MAX_ENTRY` detach and return the whole
contents (`Some(self.flush())`), else return `None`. The returned pair is
(returned snapshot option, resulting memtable state). -/
def HashMemtable.set (m : HashMemtable K V) (k : K) (v : V) :
Option (List (K × V) × List K) × HashMemtable K V :=
let m1 := m.afterSet k v
if MAX_ENTRY ≤ m1.underlying.length then
  let r := m1.flush
  (some r.1, r.2)
else
  (none, m1)

/-- `Memtable::delete` for `HashMemtable`: remove the mapping entry, insert the
tombstone. -/
def HashMemtable.delete (m : HashMemtable K V) (k : K) : HashMemtable K V :=
⟨removeKey m.underlying k, insertElem m.tombstone k⟩

/-- A mutating memtable operation (the two mutators of the `Memtable` trait). -/
inductive MemOp (K V : Type) where
| set (k : K) (v : V)
| del (k : K)
deriving DecidableEq

/-- Apply one operation to a memtable state (for `set`, keep the resulting
state, discarding any detached snapshot). -/
def applyOp (m : HashMemtable K V) : MemOp K V → HashMemtable K V
| MemOp.set k v => (m.set k v).2
| MemOp.del k => m.delete k

/-- Apply a sequence of operations starting from the empty memtable. -/
def applyOps (ops : List (MemOp K V)) : HashMemtable K V :=
ops.foldl applyOp HashMemtable.new

/-- Membership characterization for `removeKey`. -/
theorem mem_removeKey {l : List (K × V)} {k : K} {p : K × V} :
p ∈ removeKey l k ↔ p ∈ l ∧ ¬ p.1 = k := by
  simp [removeKey, List.mem_filter]

/-- Membership characterization for `removeElem`. -/
theorem mem_removeElem {s : List K} {k x : K} :
x ∈ removeElem s k ↔ x ∈ s ∧ ¬ x = k := by
  simp [removeElem, List.mem_filter]

/-- Disjointness of the live mapping and the tombstone set, as a predicate on
memtable states: no key has both a mapping entry and a tombstone. -/
def disjointKeys (m : HashMemtable K V) : Prop :=
∀ (k : K) (v : V), (k, v) ∈ m.underlying → k ∉ m.tombstone

/-- One memtable operation preserves mapping/tombstone disjointness. -/
theorem applyOp_disjoint (m : HashMemtable K V) (op : MemOp K V)
(hm : disjointKeys m) : disjointKeys (applyOp m op) := by
  cases op with
  | set k v =>
      by_cases hlen : MAX_ENTRY ≤ (insertKey m.underlying k v).length
      · intro k1 v1 h1
        simp [applyOp, HashMemtable.set, HashMemtable.afterSet, hlen,
          HashMemtable.flush, HashMemtable.new] at h1
      · intro k1 v1 h1 h2
        simp only [applyOp, HashMemtable.set, HashMemtable.afterSet, hlen,
          if_false] at h1 h2
        simp only [insertKey, List.mem_cons] at h1
        rcases mem_removeElem.mp h2 with ⟨h3, h4⟩
        rcases h1 with h1 | h1
        · exact h4 (congrArg Prod.fst h1)
        · rcases mem_removeKey.mp h1 with ⟨h5, _⟩
          exact hm k1 v1 h5 h3
  | del k =>
      intro k1 v1 h1 h2
      simp only [applyOp, HashMemtable.delete] at h1 h2
      rcases mem_removeKey.mp h1 with ⟨h3, h4⟩
      simp only [insertElem, List.mem_cons] at h2
      rcases h2 with h2 | h2
      · exact h4 h2
      · rcases mem_removeElem.mp h2 with ⟨h5, _⟩
        exact hm k1 v1 h3 h5

/-- Every state reachable from the empty memtable is disjoint. -/
theorem applyOps_disjoint (ops : List (MemOp K V)) : disjointKeys (applyOps ops) := by
  unfold applyOps
  generalize hm : (HashMemtable.new : HashMemtable K V) = m0
  have hd : disjointKeys m0 := by
    intro k1 v1 h1
    rw [← hm] at h1
    simp [HashMemtable.new] at h1
  clear hm
  induction ops generalizing m0 with
  | nil => exact hd
  | cons op rest ih =>
      exact ih (applyOp m0 op) (applyOp_disjoint m0 op hd)

/-- C7. Memtable disjointness invariant: starting from the empty `HashMemtable`,
after any sequence of `set` and `delete` calls every key is in at most one of
the mapping and the tombstone set (`set` clears the key's tombstone before
inserting the mapping entry, `delete` removes the mapping entry before
inserting the tombstone). -/
theorem memtable_disjoint_invariant (ops : List (MemOp K V)) (k : K) :
(keyMem (applyOps ops).underlying k && elemMem (applyOps ops).tombstone k) = false := by
  have h := applyOps_disjoint ops
  cases hk : keyMem (applyOps ops).underlying k
  · simp
  · have h1 : ∃ p ∈ (applyOps ops).underlying, p.1 = k := by
      simpa [keyMem] using hk
    rcases h1 with ⟨⟨k0, v0⟩, h2, h3⟩
    subst h3
    have h4 := h (k0, v0).1 v0 h2
    have h5 : elemMem (applyOps ops).tombstone (k0, v0).1 = false := by
      rcases hh : elemMem (applyOps ops).tombstone (k0, v0).1 with _ | _
      · rfl
      · have h6 : (k0, v0).1 ∈ (applyOps ops).tombstone := by
          simpa [elemMem] using hh
        exact absurd h6 h4
    simp [h5]

/-- C2. Tombstone precedence in the memtable: `get` right after `delete` of the
same key returns nothing (so any sequence of `set` calls for `k` followed by
`delete k` with no later `set k _` reads as not present), and more generally a
tombstoned key reads as not present even when a mapping entry for it exists,
because `get` checks the tombstone set before consulting the mapping. -/
theorem memtable_tombstone_precedence (m : HashMemtable K V) (k : K) :
(m.delete k).get k = none ∧
(m.is_deleted k = true → m.get k = none) := by
  constructor
  · simp [HashMemtable.get, HashMemtable.delete, HashMemtable.with_check_tombstone,
      HashMemtable.is_deleted, elemMem, insertElem]
  · intro h
    simp [HashMemtable.get, HashMemtable.with_check_tombstone, h]

/-- Witness for C2 at a concrete input: the state maps "a" to "1" *and*
tombstones "a"; the tombstone wins, and `get` after `delete` returns nothing. -/
theorem memtable_tombstone_precedence_witness :
(HashMemtable.is_deleted ⟨[("a", "1")], ["a"]⟩ "a" = true) ∧
(HashMemtable.get (HashMemtable.delete ⟨[("a", "1")], ["a"]⟩ "a") "a" = none) ∧
(HashMemtable.get (⟨[("a", "1")], ["a"]⟩ : HashMemtable String String) "a" = none) :=
⟨by decide,
 (memtable_tombstone_precedence ⟨[("a", "1")], ["a"]⟩ "a").1,
 (memtable_tombstone_precedence ⟨[("a", "1")], ["a"]⟩ "a").2 (by decide)⟩

/-- Removing a key from an association list whose keys are duplicate-free and
contain `k` shortens it by exactly one pair. -/
theorem length_removeKey_of_mem {l : List (K × V)} {k : K}
(hnd : (l.map Prod.fst).Nodup) (hk : keyMem l k = true) :
(removeKey l k).length + 1 = l.length := by
  induction l with
  | nil => simp [keyMem] at hk
  | cons a t ih =>
      have hnd2 : (a.1 :: t.map Prod.fst).Nodup := by
        simpa using hnd
      have ha : a.1 ∉ t.map Prod.fst := (List.nodup_cons.mp hnd2).1
      have hnd1 : (t.map Prod.fst).Nodup := (List.nodup_cons.mp hnd2).2
      by_cases h1 : a.1 = k
      · have hknotin : ∀ p ∈ t, ¬ p.1 = k := by
          intro p hp hpk
          have h2 : p.1 ∈ t.map Prod.fst := List.mem_map_of_mem Prod.fst hp
          rw [hpk, ← h1] at h2
          exact ha h2
        have ht : removeKey t k = t := by
          apply List.filter_eq_self.mpr
          intro p hp
          simp [hknotin p hp]
        have hhead : removeKey (a :: t) k = removeKey t k := by
          simp [removeKey, List.filter_cons, h1]
        rw [hhead, ht]
        simp
      · have hk1 : keyMem t k = true := by
          simpa [keyMem, h1] using hk
        have ihh := ih hnd1 hk1
        have h2 : removeKey (a :: t) k = a :: removeKey t k := by
          simp [removeKey, List.filter_cons, h1]
        rw [h2]
        simp only [List.length_cons]
        omega

/-- One memtable operation keeps the mapping size at most `MAX_ENTRY - 1`. -/
theorem applyOp_size (m : HashMemtable K V) (op : MemOp K V)
(hm : m.underlying.length ≤ MAX_ENTRY - 1) :
(applyOp m op).underlying.length ≤ MAX_ENTRY - 1 := by
  cases op with
  | set k v =>
      by_cases hlen : MAX_ENTRY ≤ (insertKey m.underlying k v).length
      · simp [applyOp, HashMemtable.set, HashMemtable.afterSet, hlen,
          HashMemtable.flush, HashMemtable.new]
      · simp only [applyOp, HashMemtable.set, HashMemtable.afterSet, hlen, if_false]
        omega
  | del k =>
      have h1 : (removeKey m.underlying k).length ≤ m.underlying.length :=
        List.length_filter_le _ _
      simp only [applyOp, HashMemtable.delete]
      omega

/-- C10. Memtable size bound: from the empty `HashMemtable`, after any sequence
of `set`/`delete` calls the live mapping holds at most `MAX_ENTRY - 1 = 2`
entries (a `set` reaching `MAX_ENTRY` immediately detaches everything and
resets the memtable; `get` takes `&self` and never changes the state), and
overwriting an already-mapped key does not increase the entry count. -/
theorem memtable_size_bound :
(∀ ops : List (MemOp K V), (applyOps ops).underlying.length ≤ MAX_ENTRY - 1) ∧
(∀ (m : HashMemtable K V) (k : K) (v : V), (m.underlying.map Prod.fst).Nodup →
  keyMem m.underlying k = true →
  (m.afterSet k v).underlying.length = m.underlying.length) := by
  constructor
  · intro ops
    unfold applyOps
    generalize hm : (HashMemtable.new : HashMemtable K V) = m0
    have hd : m0.underlying.length ≤ MAX_ENTRY - 1 := by
      rw [← hm]
      simp [HashMemtable.new, MAX_ENTRY]
    clear hm
    induction ops generalizing m0 with
    | nil => exact hd
    | cons op rest ih =>
        exact ih (applyOp m0 op) (applyOp_size m0 op hd)
  · intro m k v hnd hk
    have h1 := length_removeKey_of_mem hnd hk
    simp only [HashMemtable.afterSet, insertKey, List.length_cons]
    omega

/-- Witness for C10 at concrete inputs: the size bound after a concrete
operation sequence, and a concrete overwrite that keeps the count at 1. -/
theorem memtable_size_bound_witness :
((applyOps [MemOp.set "a" "1", MemOp.set "b" "2", MemOp.set "c" "3",
  MemOp.del "d"]).underlying.length ≤ MAX_ENTRY - 1) ∧
((([(("a" : String), ("1" : String))].map Prod.fst).Nodup ∧
  keyMem [(("a" : String), ("1" : String))] "a" = true) ∧
 (HashMemtable.afterSet ⟨[("a", "1")], []⟩ "a" "9").underlying.length =
   ([(("a" : String), ("1" : String))] : List (String × String)).length) :=
⟨(memtable_size_bound (K := String) (V := String)).1 _,
 ⟨by decide, by decide⟩,
 (memtable_size_bound (K := String) (V := String)).2 ⟨[("a", "1")], []⟩ "a" "9"
   (by decide) (by decide)⟩

/-- C4. Capacity-triggered flush with `MAX_ENTRY = 3`: a `set` call that brings
the mapping's entry count (counting the just-inserted key) to 3 returns the
entire current mapping and tombstone set as a detached snapshot and leaves the
memtable empty; a `set` call that leaves the count below 3 returns nothing and
detaches nothing. -/
theorem memtable_capacity_trigger (m : HashMemtable K V) (k : K) (v : V) :
((m.afterSet k v).underlying.length = MAX_ENTRY →
  m.set k v = (some ((m.afterSet k v).underlying, (m.afterSet k v).tombstone),
    HashMemtable.new)) ∧
((m.afterSet k v).underlying.length < MAX_ENTRY →
  m.set k v = (none, m.afterSet k v)) := by
  constructor
  · intro h
    have hlen : MAX_ENTRY ≤ (insertKey m.underlying k v).length := by
      simp only [HashMemtable.afterSet] at h
      omega
    simp [HashMemtable.set, HashMemtable.afterSet, hlen, HashMemtable.flush]
  · intro h
    have hlen : ¬ MAX_ENTRY ≤ (insertKey m.underlying k v).length := by
      simp only [HashMemtable.afterSet] at h
      omega
    simp [HashMemtable.set, HashMemtable.afterSet, hlen]

/-- Witness for C4 at concrete inputs: a third distinct key triggers the flush
(returning all three entries and the remaining tombstone set, leaving the
memtable empty), while a first key does not. -/
theorem memtable_capacity_trigger_witness :
((HashMemtable.afterSet ⟨[("a", "1"), ("b", "2")], ["x"]⟩ "c" "3").underlying.length
    = MAX_ENTRY ∧
  HashMemtable.set ⟨[("a", "1"), ("b", "2")], ["x"]⟩ "c" "3" =
    (some ((HashMemtable.afterSet ⟨[("a", "1"), ("b", "2")], ["x"]⟩ "c" "3").underlying,
      (HashMemtable.afterSet ⟨[("a", "1"), ("b", "2")], ["x"]⟩ "c" "3").tombstone),
      HashMemtable.new)) ∧
((HashMemtable.afterSet (⟨[], []⟩ : HashMemtable String String) "a" "1").underlying.length
    < MAX_ENTRY ∧
  HashMemtable.set (⟨[], []⟩ : HashMemtable String String) "a" "1" =
    (none, HashMemtable.afterSet ⟨[], []⟩ "a" "1")) :=
⟨⟨by decide,
  (memtable_capacity_trigger ⟨[("a", "1"), ("b", "2")], ["x"]⟩ "c" "3").1 (by decide)⟩,
 ⟨by decide,
  (memtable_capacity_trigger (⟨[], []⟩ : HashMemtable String String) "a" "1").2
    (by decide)⟩⟩

/-- Result of querying a detached memtable snapshot for a key
(`memtable::GetResult` from the memtable module of the flush-capable variant). -/
inductive GetResult (V : Type) where
| Found (v : V)
| Deleted
| NotFound
deriving DecidableEq

/-- Modelled from the spec: `MemtableEntries<String, String>` — the detached
snapshot type from the memtable module, not present under src/ — pairs the
frozen mapping with the frozen tombstone set (§3 "Memtable snapshot"). -/
structure MemtableEntries where
entries : List (String × String)
tombstones : List String
deriving DecidableEq

/-- Modelled from the spec: `MemtableEntries::get` reports a tombstoned key as
`Deleted`, a mapped key as `Found` with its value, and a key absent from both
as `NotFound` (§4.4 find, step 1; by §3 no key is ever in both sets). -/
def MemtableEntries.get (mem : MemtableEntries) (k : String) : GetResult String :=
if elemMem mem.tombstones k then GetResult.Deleted
else
  match lookupKey mem.entries k with
  | some v => GetResult.Found v
  | none => GetResult.NotFound

/-- An ordinary I/O failure, reported as a recoverable `Err` result. -/
inductive IOError where
| ioError
deriving DecidableEq

/-- A Rust panic (`unwrap`/`expect` on an `Err`), distinct from an `Err` return. -/
inductive Panic where
| panicked
deriving DecidableEq

/-- One decoded data-file record: key, value and tombstone flag (§4.2: each
record is self-describing — key, optional value, tombstone flag). A tombstone
record carries no value bytes; its decoded value is the empty string. -/
structure DataFileEntry where
key : String
value : String
deleted : Bool
deriving DecidableEq

/-- An index entry handed back by `IndexFile::find_index`: the generation it
belongs to and the byte offset of the key's record in that generation's data
file (offsets abstracted to record indices, an order-preserving bijection). -/
structure IndexEntry where
data_gen : Int
offset : Nat
deriving DecidableEq

/-- Contents of the table's directory: for each generation present, its data
file's record list and its index file's (key, offset) list. -/
structure Disk where
dataFiles : List (Int × List DataFileEntry)
indexFiles : List (Int × List (String × Nat))
deriving DecidableEq

/-- Modelled from the spec (§7): which file-system operations fail with an I/O
error; failures are injected per operation so that error paths are provable. -/
structure Env where
dataCreateFails : Bool
indexCreateFails : Bool
dataRemoveFails : Int → Bool
indexRemoveFails : Int → Bool

/-- State of `FileDisktable` from src/sst/disktable.rs: directory name, current
generation (`data_gen: i32`, modelled as `Int`), and the optional in-flight
flushing snapshot. The `data_files` handle cache is elided: a cached handle and
the transient `DataFile::of` fallback of `with_data_file` read the same
immutable on-disk file, so the cache is semantically transparent. -/
structure FileDisktable where
dir_name : String
data_gen : Int
flushing : Option MemtableEntries
deriving DecidableEq

/-- Modelled from the spec (§4.2 create): the record list written for one
generation — one record per mapping entry and one per tombstone. Key-sorted
order is abstracted to list order; no verified property depends on record
order, only on offsets resolving to the records the index reports. -/
def DataFile.createRecords (mem : MemtableEntries) : List DataFileEntry :=
mem.entries.map (fun p => ⟨p.1, p.2, false⟩) ++
  mem.tombstones.map (fun k => ⟨k, "", true⟩)

/-- Modelled from the spec (§4.2 create): the returned index-entry list — for
every record written, its key and the offset at which it begins. -/
def DataFile.indexEntriesOf (records : List DataFileEntry) : List (String × Nat) :=
records.enum.map (fun p => (p.2.key, p.1))

/-- Modelled from the spec (§4.2 create): fails with an I/O error when the
file system rejects the write; otherwise stores the generation's record list
and returns the new disk contents with the index-entry list. -/
def DataFile.create (env : Env) (disk : Disk) (gen : Int) (mem : MemtableEntries) :
Except IOError (Disk × List (String × Nat)) :=
if env.dataCreateFails then Except.error IOError.ioError
else
  Except.ok (⟨insertKey disk.dataFiles gen (DataFile.createRecords mem), disk.indexFiles⟩,
    DataFile.indexEntriesOf (DataFile.createRecords mem))

/-- Modelled from the spec (§4.2 read_entry): decode exactly the record at the
offset — tombstones are decoded, not filtered, by the data layer; nothing when
the offset is out of range or the generation's data file is absent. -/
def DataFile.read_entry (disk : Disk) (gen : Int) (offset : Nat) : Option DataFileEntry :=
(lookupKey disk.dataFiles gen).bind (fun records => records.get? offset)

/-- Modelled from the spec (§4.2 and §8 clear idempotence, which requires that
removing an already-absent file succeed): remove one generation's data file. -/
def DataFile.clearFile (env : Env) (disk : Disk) (gen : Int) : Except IOError Disk :=
if env.dataRemoveFails gen then Except.error IOError.ioError
else Except.ok ⟨removeKey disk.dataFiles gen, disk.indexFiles⟩

/-- Modelled from the spec (§4.3 create_index): persist the (key, offset) pairs
for one generation, failing when the file system rejects the write. -/
def IndexFile.create_index (env : Env) (disk : Disk) (gen : Int)
(idx : List (String × Nat)) : Except IOError Disk :=
if env.indexCreateFails then Except.error IOError.ioError
else Except.ok ⟨disk.dataFiles, insertKey disk.indexFiles gen idx⟩

/-- Modelled from the spec (§4.3 find_index): the exact offset of the key's
record in this generation when present, nothing otherwise (also nothing when
the generation has no index file). -/
def IndexFile.find_index (disk : Disk) (gen : Int) (key : String) : Option IndexEntry :=
(lookupKey disk.indexFiles gen).bind (fun content =>
  (content.find? (fun p => decide (p.1 = key))).map (fun p => ⟨gen, p.2⟩))

/-- Modelled from the spec (§4.3 clear): remove one generation's index file. -/
def IndexFile.clearFile (env : Env) (disk : Disk) (gen : Int) : Except IOError Disk :=
if env.indexRemoveFails gen then Except.error IOError.ioError
else Except.ok ⟨disk.dataFiles, removeKey disk.indexFiles gen⟩

/-- The generation scan `(0..=g).rev()` of `find`: g, g-1, ..., 0 (empty when
`g` is negative). -/
def gensDown (g : Int) : List Int :=
if g < 0 then [] else ((List.range (g + 1).toNat).map Int.ofNat).reverse

/-- The generation scan `0..=g` of `clear`: 0, 1, ..., g (empty when `g` is
negative). -/
def gensUp (g : Int) : List Int :=
if g < 0 then [] else (List.range (g + 1).toNat).map Int.ofNat

/-- `FileDisktable::fetch`: read the record at the offset through
`with_data_file` and keep only its key and value — the tombstone flag is
discarded here. -/
def FileDisktable.fetch (disk : Disk) (gen : Int) (offset : Nat) :
Option (String × String) :=
(DataFile.read_entry disk gen offset).map (fun e => (e.key, e.value))

/-- The `find_from_disk` closure inside `FileDisktable::find`: scan generations
newest to oldest; for each, look the key up in that generation's index file,
fetch the record at the reported offset, and keep it only when its decoded key
equals the requested key. -/
def FileDisktable.find_from_disk (disk : Disk) (t : FileDisktable) (key : String) :
Option String :=
(gensDown t.data_gen).findSome? (fun gen =>
  (IndexFile.find_index disk gen key).bind (fun ie =>
    ((FileDisktable.fetch disk ie.data_gen ie.offset).filter
      (fun p => decide (p.1 = key))).map Prod.snd))

/-- `Disktable::find` for `FileDisktable`: when a flushing snapshot is present,
consult it first — `Found` and `Deleted` short-circuit, `NotFound` falls
through to the disk scan; with no snapshot, go straight to the disk scan. -/
def FileDisktable.find (disk : Disk) (t : FileDisktable) (key : String) : Option String :=
match t.flushing with
| some mem =>
    match mem.get key with
    | GetResult.Found v => some v
    | GetResult.Deleted => none
    | GetResult.NotFound => FileDisktable.find_from_disk disk t key
| none => FileDisktable.find_from_disk disk t key

/-- `Disktable::flush` for `FileDisktable`: record the snapshot in `flushing`,
write the next generation's data file, then its index file; a failing write
returns its error immediately (the `?` operator), leaving the state as it then
is; only after both writes succeed are `data_gen` advanced and `flushing`
cleared. Returns (the call's `Result`, resulting table state, resulting disk). -/
def FileDisktable.flush (env : Env) (disk : Disk) (t : FileDisktable)
(mem : MemtableEntries) : Except IOError Unit × FileDisktable × Disk :=
match DataFile.create env disk (t.data_gen + 1) mem with
| Except.error e => (Except.error e, ⟨t.dir_name, t.data_gen, some mem⟩, disk)
| Except.ok r =>
    match IndexFile.create_index env r.1 (t.data_gen + 1) r.2 with
    | Except.error e => (Except.error e, ⟨t.dir_name, t.data_gen, some mem⟩, r.1)
    | Except.ok disk2 => (Except.ok (), ⟨t.dir_name, t.data_gen + 1, none⟩, disk2)

/-- The `unwrap` applied to each removal result in `Disktable::clear`: an `Err`
becomes a panic. -/
def unwrapped {α : Type} : Except IOError α → Except Panic α
| Except.ok a => Except.ok a
| Except.error _ => Except.error Panic.panicked

/-- The `for_each` loop of `Disktable::clear` over `0..=data_gen`: remove each
generation's data file and index file, unwrapping both results. -/
def clearLoop (env : Env) : List Int → Disk → Except Panic Disk
| [], disk => Except.ok disk
| gen :: rest, disk =>
    match unwrapped (DataFile.clearFile env disk gen) with
    | Except.error p => Except.error p
    | Except.ok d1 =>
        match unwrapped (IndexFile.clearFile env d1 gen) with
        | Except.error p => Except.error p
        | Except.ok d2 => clearLoop env rest d2

/-- `Disktable::clear` for `FileDisktable`: run the removal loop (panicking on
any removal failure), then reset `data_gen` to 0 and return `Ok(())`. -/
def FileDisktable.clear (env : Env) (disk : Disk) (t : FileDisktable) :
Except Panic (Except IOError Unit × FileDisktable × Disk) :=
match clearLoop env (gensUp t.data_gen) disk with
| Except.error p => Except.error p
| Except.ok d => Except.ok (Except.ok (), ⟨t.dir_name, 0, t.flushing⟩, d)

/-- Decimal value of a digit run. -/
def digitsToNat (ds : List Char) : Nat :=
ds.foldl (fun n c => n * 10 + (c.toNat - 48)) 0

/-- Modelled from the spec (§6): data files are named
`<data-file-prefix>_<generation>`; the concrete prefix constant
`DataFile::FILE_NAME_PREFIX` lives in the absent data_file.rs and is
abstracted as "data". -/
def dataFileTag : String := "data"

/-- Match of the regex `<pat>(\d+)` anchored at the current position: the
pattern characters followed by at least one digit, the capture being the
maximal (greedy) digit run. -/
def matchHere (pat : List Char) (s : List Char) : Option Nat :=
if pat.isPrefixOf s then
  let ds := (s.drop pat.length).takeWhile Char.isDigit
  if ds.isEmpty then none else some (digitsToNat ds)
else none

/-- Leftmost match of the regex `<pat>(\d+)` anywhere in the string —
`Regex::captures` semantics for this pattern. -/
def firstMatch (pat : List Char) : List Char → Option Nat
| [] => none
| c :: cs =>
    match matchHere pat (c :: cs) with
    | some n => some n
    | none => firstMatch pat cs

/-- The filename match inside `FileDisktable::get_data_gens`: the generation
number captured by `<data-file-prefix>_(\d+)` when the pattern occurs in the
file name. -/
def matchGen (name : String) : Option Nat :=
firstMatch (dataFileTag ++ "_").toList name.toList

/-- The `parse::<DataGen>().unwrap()` on a captured number: parsed as `i32`,
panicking when out of the `i32` range. -/
def parseDataGen (n : Nat) : Except Panic Int :=
if n < 2 ^ 31 then Except.ok (Int.ofNat n) else Except.error Panic.panicked

/-- The fold of `FileDisktable::get_data_gens` (directory iteration abstracted
to the given list of file names): parsed generation numbers of the matching
names, in listing order. -/
def collectGens : List String → Except Panic (List Int)
| [] => Except.ok []
| name :: rest =>
    match matchGen name with
    | none => collectGens rest
    | some n =>
        match parseDataGen n with
        | Except.error p => Except.error p
        | Except.ok g =>
            match collectGens rest with
            | Except.error p => Except.error p
            | Except.ok gs => Except.ok (g :: gs)

/-- `FileDisktable::get_data_gens`: the collected matches, sorted ascending. -/
def get_data_gens (listing : List String) : Except Panic (List Int) :=
(collectGens listing).map (fun l => l.mergeSort (fun a b => decide (a ≤ b)))

/-- `FileDisktable::get_latest_data_gen`: the last element of the sorted list,
0 when no file name matched (`list.last().unwrap_or(&0)`). -/
def get_latest_data_gen (listing : List String) : Except Panic Int :=
(get_data_gens listing).map (fun l => l.getLastD 0)

/-- `FileDisktable::new` over the directory's file listing (directory creation
is elided — its failure is an `expect` panic outside every claim): `data_gen`
from the filename scan, no in-flight snapshot. -/
def FileDisktable.new (dir : String) (listing : List String) :
Except Panic FileDisktable :=
(get_latest_data_gen listing).map (fun g => ⟨dir, g, none⟩)

/-- Environment in which every file operation succeeds. -/
def envAllOk : Env :=
⟨false, false, fun _ => false, fun _ => false⟩

/-- Environment in which writing a data file fails. -/
def envDataCreateFail : Env :=
⟨true, false, fun _ => false, fun _ => false⟩

/-- Environment in which removing the generation-1 data file fails. -/
def envRemoveGen1Fail : Env :=
⟨false, false, fun g => decide (g = 1), fun _ => false⟩

/-- A directory with no files. -/
def diskEmpty : Disk :=
⟨[], []⟩

/-- A fresh table over an empty directory. -/
def tZero : FileDisktable :=
⟨"dir", 0, none⟩

/-- A snapshot mapping "a" to "1", with no tombstones. -/
def memA1 : MemtableEntries :=
⟨[("a", "1")], []⟩

/-- A snapshot with no mapping entries and a tombstone for "a". -/
def memDelA : MemtableEntries :=
⟨[], ["a"]⟩

/-- C3. Flush atomicity on error: `flush` returns an I/O error exactly when the
data-file write or the paired index-file write fails, and then `data_gen` keeps
its pre-flush value; `data_gen` is advanced to `data_gen + 1` exactly when both
writes succeed. -/
theorem flush_atomic_on_error (env : Env) (disk : Disk) (t : FileDisktable)
(mem : MemtableEntries) :
((FileDisktable.flush env disk t mem).1 =
  (if (env.dataCreateFails || env.indexCreateFails) = true
    then Except.error IOError.ioError else Except.ok ())) ∧
((FileDisktable.flush env disk t mem).2.1.data_gen =
  (if (env.dataCreateFails || env.indexCreateFails) = true
    then t.data_gen else t.data_gen + 1)) := by
  cases h1 : env.dataCreateFails with
  | true => simp [FileDisktable.flush, DataFile.create, h1]
  | false =>
      cases h2 : env.indexCreateFails with
      | true => simp [FileDisktable.flush, DataFile.create, IndexFile.create_index, h1, h2]
      | false => simp [FileDisktable.flush, DataFile.create, IndexFile.create_index, h1, h2]

/-- C6. In-flight snapshot consulted first: with `flushing = some mem`, a
`Found` answer from the snapshot is returned as is and a `Deleted` answer
yields "not found", both for *every* disk state (no disk access can influence
the result); only a `NotFound` answer falls through to the newest-to-oldest
disk scan. -/
theorem find_consults_snapshot_first (t : FileDisktable) (mem : MemtableEntries)
(key : String) (hf : t.flushing = some mem) :
(∀ v, mem.get key = GetResult.Found v →
  ∀ disk, FileDisktable.find disk t key = some v) ∧
(mem.get key = GetResult.Deleted →
  ∀ disk, FileDisktable.find disk t key = none) ∧
(mem.get key = GetResult.NotFound →
  ∀ disk, FileDisktable.find disk t key = FileDisktable.find_from_disk disk t key) := by
  refine ⟨?_, ?_, ?_⟩
  · intro v hg disk
    simp [FileDisktable.find, hf, hg]
  · intro hg disk
    simp [FileDisktable.find, hf, hg]
  · intro hg disk
    simp [FileDisktable.find, hf, hg]

/-- A snapshot used to witness C6: "a" is mapped, "x" is tombstoned. -/
def memSnap6 : MemtableEntries :=
⟨[("a", "1")], ["x"]⟩

/-- A table state with the C6 snapshot in flight. -/
def tFlushing6 : FileDisktable :=
⟨"dir", 0, some memSnap6⟩

/-- Witness for C6 at concrete inputs: with the snapshot in flight over an
empty disk, a mapped key returns its snapshot value and a tombstoned key
returns nothing. -/
theorem find_consults_snapshot_first_witness :
(tFlushing6.flushing = some memSnap6 ∧
  memSnap6.get "a" = GetResult.Found "1" ∧
  FileDisktable.find diskEmpty tFlushing6 "a" = some "1") ∧
(memSnap6.get "x" = GetResult.Deleted ∧
  FileDisktable.find diskEmpty tFlushing6 "x" = none) :=
⟨⟨rfl, by decide,
  (find_consults_snapshot_first tFlushing6 memSnap6 "a" rfl).1 "1" (by decide) diskEmpty⟩,
 ⟨by decide,
  (find_consults_snapshot_first tFlushing6 memSnap6 "x" rfl).2.1 (by decide) diskEmpty⟩⟩

/-- C8 counterexample: when the data-file write fails, `flush` returns an I/O
error but leaves `flushing` holding the snapshot — the claim that `flushing`
is back to `None` when `flush` returns *for every outcome* is false on the
error path (the `?` operator returns before the `self.flushing = None` line). -/
theorem flush_error_keeps_flushing_set :
(FileDisktable.flush envDataCreateFail diskEmpty tZero memA1).1 =
  Except.error IOError.ioError ∧
(FileDisktable.flush envDataCreateFail diskEmpty tZero memA1).2.1.flushing =
  some memA1 :=
⟨rfl, rfl⟩

/-- C8 amended. In-flight snapshot lifetime: `flushing` is set only by `flush`;
when `flush` returns successfully it is back to `None`, while an I/O-error
return leaves it holding the snapshot; no other operation sets it (`new`
initializes it to `None`, `clear` leaves it unchanged, `find` does not mutate
the state). -/
theorem flushing_snapshot_lifecycle (env : Env) (disk : Disk) (t : FileDisktable)
(mem : MemtableEntries) :
((FileDisktable.flush env disk t mem).1 = Except.ok () →
  (FileDisktable.flush env disk t mem).2.1.flushing = none) ∧
(∀ e, (FileDisktable.flush env disk t mem).1 = Except.error e →
  (FileDisktable.flush env disk t mem).2.1.flushing = some mem) ∧
(∀ (dir : String) (listing : List String) (td : FileDisktable),
  FileDisktable.new dir listing = Except.ok td → td.flushing = none) ∧
(∀ r, FileDisktable.clear env disk t = Except.ok r →
  r.2.1.flushing = t.flushing) := by
  refine ⟨?_, ?_, ?_, ?_⟩
  · intro h
    cases h1 : env.dataCreateFails with
    | true => simp [FileDisktable.flush, DataFile.create, h1] at h
    | false =>
        cases h2 : env.indexCreateFails with
        | true =>
            simp [FileDisktable.flush, DataFile.create, IndexFile.create_index, h1, h2] at h
        | false =>
            simp [FileDisktable.flush, DataFile.create, IndexFile.create_index, h1, h2]
  · intro e h
    cases h1 : env.dataCreateFails with
    | true => simp [FileDisktable.flush, DataFile.create, h1]
    | false =>
        cases h2 : env.indexCreateFails with
        | true =>
            simp [FileDisktable.flush, DataFile.create, IndexFile.create_index, h1, h2]
        | false =>
            simp [FileDisktable.flush, DataFile.create, IndexFile.create_index, h1, h2] at h
  · intro dir listing td h
    unfold FileDisktable.new at h
    cases hg : get_latest_data_gen listing with
    | error p =>
        rw [hg] at h
        simp [Except.map] at h
    | ok g =>
        rw [hg] at h
        simp [Except.map] at h
        rw [← h]
  · intro r h
    unfold FileDisktable.clear at h
    cases hc : clearLoop env (gensUp t.data_gen) disk with
    | error p =>
        rw [hc] at h
        simp at h
    | ok d =>
        rw [hc] at h
        simp at h
        rw [← h]

/-- Witness for C8's amended theorem at concrete inputs: a successful flush
clears `flushing`, a failed one retains the snapshot, `new` starts with no
snapshot, and `clear` leaves the field unchanged. -/
theorem flushing_snapshot_lifecycle_witness :
((FileDisktable.flush envAllOk diskEmpty tZero memA1).1 = Except.ok () ∧
  (FileDisktable.flush envAllOk diskEmpty tZero memA1).2.1.flushing = none) ∧
((FileDisktable.flush envDataCreateFail diskEmpty tZero memA1).1 =
    Except.error IOError.ioError ∧
  (FileDisktable.flush envDataCreateFail diskEmpty tZero memA1).2.1.flushing =
    some memA1) ∧
(FileDisktable.new "d" [] = Except.ok ⟨"d", 0, none⟩ ∧
  (⟨"d", 0, none⟩ : FileDisktable).flushing = none) ∧
(FileDisktable.clear envAllOk diskEmpty tZero =
    Except.ok (Except.ok (), ⟨"dir", 0, none⟩, diskEmpty) ∧
  ((Except.ok (), (⟨"dir", 0, none⟩ : FileDisktable), diskEmpty) :
      Except IOError Unit × FileDisktable × Disk).2.1.flushing = tZero.flushing) :=
by
  have hnew : FileDisktable.new "d" [] = Except.ok ⟨"d", 0, none⟩ := by
    simp [FileDisktable.new, get_latest_data_gen, get_data_gens, collectGens, Except.map]
  exact
    ⟨⟨rfl, (flushing_snapshot_lifecycle envAllOk diskEmpty tZero memA1).1 rfl⟩,
     ⟨rfl, (flushing_snapshot_lifecycle envDataCreateFail diskEmpty tZero memA1).2.1
        IOError.ioError rfl⟩,
     ⟨hnew, (flushing_snapshot_lifecycle envAllOk diskEmpty tZero memA1).2.2.1
        "d" [] ⟨"d", 0, none⟩ hnew⟩,
     ⟨rfl, (flushing_snapshot_lifecycle envAllOk diskEmpty tZero memA1).2.2.2
        (Except.ok (), ⟨"dir", 0, none⟩, diskEmpty) rfl⟩⟩

/-- The successful flush of generation 1 with mapping entry ("a", "1"). -/
def flushGen1 : Except IOError Unit × FileDisktable × Disk :=
FileDisktable.flush envAllOk diskEmpty tZero memA1

/-- The successful flush of generation 2 with a tombstone for "a". -/
def flushGen2 : Except IOError Unit × FileDisktable × Disk :=
FileDisktable.flush envAllOk flushGen1.2.2 flushGen1.2.1 memDelA

/-- C1 evaluated at the failing input: "a" is written (as a value) in
generation 1 and deleted (as a tombstone) in generation 2; both flushes
succeed, yet `find "a"` afterwards returns `some ""` — the decoded tombstone
record's key matches, its flag is discarded by `fetch`, and its (empty) value
is returned. `find_from_disk` has no tombstone check at all, so the search
does not terminate with "not found" as the claim requires (and had the data
layer filtered tombstones instead, the generation-1 value would resurface). -/
theorem generation_masking_violated :
flushGen1.1 = Except.ok () ∧
flushGen2.1 = Except.ok () ∧
flushGen2.2.1.data_gen = 2 ∧
FileDisktable.find flushGen2.2.2 flushGen2.2.1 "a" = some "" :=
⟨rfl, rfl, rfl, by decide⟩

/-- The directory contents after flushing generation 1: its data file holds the
record ("a", "1", live) and its index file maps "a" to offset 0. -/
def diskGen1 : Disk :=
⟨[(1, [⟨"a", "1", false⟩])], [(1, [("a", 0)])]⟩

/-- A table whose current generation is 1. -/
def tGen1 : FileDisktable :=
⟨"dir", 1, none⟩

/-- C9 evaluated at the failing input: with generation 1 present and the
removal of its data file failing with an I/O error, `clear` panics — the
`.unwrap()` inside the removal loop turns the error into a panic instead of
surfacing it as the method's error result. -/
theorem clear_panics_on_remove_failure :
FileDisktable.clear envRemoveGen1Fail diskGen1 tGen1 = Except.error Panic.panicked :=
rfl

/-- The specification's description of generation discovery: the highest
generation number embedded in any data-file name of the listing, 0 when no
name matches. -/
def specLatestGen (listing : List String) : Int :=
((listing.filterMap matchGen).map Int.ofNat).foldr max 0

/-- Every element is bounded by the `foldr max 0` of its list. -/
theorem le_foldr_max (l : List Int) (x : Int) (hx : x ∈ l) : x ≤ l.foldr max 0 := by
  induction l with
  | nil => simp at hx
  | cons a t ih =>
      rcases List.mem_cons.mp hx with h | h
      · rw [h]
        exact le_max_left _ _
      · exact le_trans (ih h) (le_max_right _ _)

/-- The `foldr max 0` of a list is 0 or one of its elements. -/
theorem foldr_max_mem (l : List Int) : l.foldr max 0 ∈ (0 : Int) :: l := by
  induction l with
  | nil => simp
  | cons a t ih =>
      rcases max_choice a (t.foldr max 0) with h | h
      · simp [h]
      · rw [List.foldr_cons, h]
        rcases List.mem_cons.mp ih with h1 | h1
        · simp [h1]
        · simp [List.mem_cons_of_mem, h1]

/-- The last element (with default) of a nonempty list is a member. -/
theorem getLastD_mem (a : Int) (t : List Int) (d : Int) : (a :: t).getLastD d ∈ a :: t := by
  rw [List.getLastD_cons]
  exact List.getLastD_mem_cons t a

/-- For a nonempty list the default of `getLastD` is irrelevant. -/
theorem getLastD_default_irrel (b : Int) (u : List Int) (d1 d2 : Int) :
(b :: u).getLastD d1 = (b :: u).getLastD d2 := by
  cases u <;> rfl

/-- In a `≤`-sorted list every element is at most the last element. -/
theorem le_getLastD_of_sorted :
∀ (s : List Int), s.Pairwise (fun x y => x ≤ y) → ∀ x ∈ s, x ≤ s.getLastD 0
| [] => by
    intro _ x hx
    simp at hx
| [a] => by
    intro _ x hx
    simp at hx
    simp [hx]
| a :: b :: u => by
    intro hp x hx
    have ha : ∀ y ∈ b :: u, a ≤ y := (List.pairwise_cons.mp hp).1
    have ht : (b :: u).Pairwise (fun x y => x ≤ y) := (List.pairwise_cons.mp hp).2
    rw [List.getLastD_cons, getLastD_default_irrel b u a 0]
    rcases List.mem_cons.mp hx with h2 | h2
    · rw [h2]
      exact ha _ (getLastD_mem b u 0)
    · exact le_getLastD_of_sorted (b :: u) ht x h2

/-- The last element of the ascending merge sort of a list of non-negative
integers equals the list's `foldr max 0` — i.e. the code's sort-then-take-last
computes the maximum, with 0 for an empty list. -/
theorem mergeSort_getLastD_eq_max (l : List Int) (h0 : ∀ x ∈ l, 0 ≤ x) :
(l.mergeSort (fun a b => decide (a ≤ b))).getLastD 0 = l.foldr max 0 := by
  cases hl : l.mergeSort (fun a b => decide (a ≤ b)) with
  | nil =>
      have hperm := List.mergeSort_perm l (fun a b => decide (a ≤ b))
      rw [hl] at hperm
      have hln : l = [] := hperm.symm.eq_nil
      rw [hln]
      rfl
  | cons b u =>
      have hperm := List.mergeSort_perm l (fun a b => decide (a ≤ b))
      rw [hl] at hperm
      have htrans : ∀ (x y z : Int),
          decide (x ≤ y) = true → decide (y ≤ z) = true → decide (x ≤ z) = true := by
        intro x y z h1 h2
        simp at h1 h2 ⊢
        omega
      have htotal : ∀ (x y : Int), (decide (x ≤ y) || decide (y ≤ x)) = true := by
        intro x y
        simp
        omega
      have hsortedB := List.sorted_mergeSort htrans htotal l
      rw [hl] at hsortedB
      have hsorted : (b :: u).Pairwise (fun x y => x ≤ y) := by
        refine hsortedB.imp ?_
        intro x y h
        simpa using h
      apply le_antisymm
      · exact le_foldr_max l _ (hperm.mem_iff.mp (getLastD_mem b u 0))
      · rcases List.mem_cons.mp (foldr_max_mem l) with h1 | h1
        · rw [h1]
          exact h0 _ (hperm.mem_iff.mp (getLastD_mem b u 0))
        · exact le_getLastD_of_sorted (b :: u) hsorted _ (hperm.mem_iff.mpr h1)

/-- When every matched generation number is in `i32` range, the collection fold
succeeds and yields exactly the matched numbers, in listing order. -/
theorem collectGens_eq (listing : List String)
(h : ∀ name ∈ listing, (matchGen name).getD 0 < 2 ^ 31) :
collectGens listing = Except.ok ((listing.filterMap matchGen).map Int.ofNat) := by
  induction listing with
  | nil => rfl
  | cons name rest ih =>
      have hrest : ∀ nm ∈ rest, (matchGen nm).getD 0 < 2 ^ 31 := by
        intro nm hm
        exact h nm (List.mem_cons_of_mem _ hm)
      cases hm : matchGen name with
      | none =>
          simp only [collectGens, hm, List.filterMap_cons]
          exact ih hrest
      | some n =>
          have hn : n < 2 ^ 31 := by
            have h1 := h name (List.mem_cons_self name rest)
            rw [hm] at h1
            simpa using h1
          simp only [collectGens, hm, parseDataGen, hn, if_pos, List.filterMap_cons,
            List.map_cons, ih hrest]

/-- C5. Recovery by filename scan: `FileDisktable::new` initializes the current
generation to the highest generation number embedded in any data-file name of
the directory listing (names matched by the `<data-file-prefix>_<number>`
pattern), and to 0 when no name matches; the in-flight snapshot starts empty.
The hypothesis restricts matched numbers to the range of the `i32` the code
parses into. -/
theorem new_recovers_latest_generation (dir : String) (listing : List String)
(h : ∀ name ∈ listing, (matchGen name).getD 0 < 2 ^ 31) :
FileDisktable.new dir listing = Except.ok ⟨dir, specLatestGen listing, none⟩ := by
  unfold FileDisktable.new get_latest_data_gen get_data_gens
  rw [collectGens_eq listing h]
  have h0 : ∀ x ∈ (listing.filterMap matchGen).map Int.ofNat, (0 : Int) ≤ x := by
    intro x hx
    rcases List.mem_map.mp hx with ⟨n, _, hn⟩
    rw [← hn]
    exact Int.ofNat_nonneg n
  simp only [Except.map]
  rw [mergeSort_getLastD_eq_max _ h0]
  rfl

/-- Witness for C5 at a concrete listing: "data_1" and "data_2" match (with
generations 1 and 2), "index_9" and "foo" do not, so the recovered current
generation is 2. -/
theorem new_recovers_latest_generation_witness :
(∀ name ∈ (["data_1", "index_9", "foo", "data_2"] : List String),
  (matchGen name).getD 0 < 2 ^ 31) ∧
specLatestGen ["data_1", "index_9", "foo", "data_2"] = 2 ∧
FileDisktable.new "d" ["data_1", "index_9", "foo", "data_2"] =
  Except.ok ⟨"d", specLatestGen ["data_1", "index_9", "foo", "data_2"], none⟩ :=
⟨by decide, by decide,
 new_recovers_latest_generation "d" ["data_1", "index_9", "foo", "data_2"] (by decide)⟩

end Rsstable
